import Mathlib

/-!
Shallow embedding of the RustFin forecasting pipeline (`src/src/main.rs`)
and proofs about the spec's claims.

The program fetches a historical inflation series (JSON records with
string-encoded values), decodes it via serde with a custom
`string_to_f64` field parser, extracts the value sequence, and on each
UI "Recalcular Previsões" click re-runs an external ARIMA engine
(statsmodels, reached through an embedded Python interpreter) and stores
the resulting forecast in a mutex-guarded vector.

Modelling decisions, stated once here:
- Rust `f64` parse results are represented syntactically by `RustFloatLit`
  (sign, digit lists, exponent, or the non-finite classes), since no
  claim depends on binary floating-point arithmetic, only on which
  strings parse and on sequences being carried through unchanged.
- The external statsmodels engine is not part of the repository; it is
  modelled from the spec as an abstract `ArimaEngine` whose only law is
  its documented contract (forecast of horizon `h` yields `h` values).
- Mutex-guarded vectors are modelled as plain lists; each guarded whole
  vector assignment in the source is one atomic step of the model.
- A Rust panic (`expect` / `unwrap` at startup) is modelled as an
  `Except.error` that aborts the construction of the session.
-/

namespace RustFin

/-- Syntactic result of Rust's `str::parse::<f64>` on an accepted string:
either the non-finite classes (`nan`, signed `inf`) or a finite decimal
literal kept as sign, integer digits, fraction digits and exponent. -/
inductive RustFloatLit where
  | nan : RustFloatLit
  | inf (neg : Bool) : RustFloatLit
  | finite (neg : Bool) (intDigits fracDigits : List Nat) (exp : Int) : RustFloatLit
deriving DecidableEq

/-- Whether the parsed value is a finite number (not `nan` or `inf`). -/
def RustFloatLit.isFiniteVal : RustFloatLit → Bool
  | .finite _ _ _ _ => true
  | _ => false

/-- Leading optional sign of a character list: returns (isNegative, rest). -/
def splitSign : List Char → Bool × List Char
  | '+' :: cs => (false, cs)
  | '-' :: cs => (true, cs)
  | cs => (false, cs)

/-- Longest leading run of decimal digits, as digit values, with the rest. -/
def takeDigits : List Char → List Nat × List Char
  | [] => ([], [])
  | c :: cs =>
    if c.isDigit then
      let (ds, rest) := takeDigits cs
      ((c.toNat - '0'.toNat) :: ds, rest)
    else ([], c :: cs)

/-- Digit list to the natural number it denotes (most significant first). -/
def digitsToNat (ds : List Nat) : Nat := ds.foldl (fun a d => 10 * a + d) 0

/-- Optional exponent suffix of Rust's float grammar:
empty input means exponent 0; otherwise requires `e`/`E`, an optional
sign and at least one digit, consuming the whole rest. -/
def parseExp : List Char → Option Int
  | [] => some 0
  | c :: cs =>
    if c = 'e' ∨ c = 'E' then
      let (eneg, cs') := splitSign cs
      let (ds, rest) := takeDigits cs'
      if ds = [] ∨ rest ≠ [] then none
      else some (if eneg then -(digitsToNat ds : Int) else (digitsToNat ds : Int))
    else none

/-- Case-insensitive non-finite encodings of Rust's float grammar:
`inf`, `infinity` and `nan`, matched against the whole remaining input. -/
def parseSpecial (neg : Bool) (cs : List Char) : Option RustFloatLit :=
  let low := cs.map Char.toLower
  if low = ['i', 'n', 'f'] ∨ low = ['i', 'n', 'f', 'i', 'n', 'i', 't', 'y'] then
    some (.inf neg)
  else if low = ['n', 'a', 'n'] then some .nan
  else none

/-- Number production of Rust's float grammar: `Digit+`, `Digit+ '.' Digit*`
or `Digit* '.' Digit+`, followed by an optional exponent. -/
def parseNumber (neg : Bool) (cs : List Char) : Option RustFloatLit :=
  let (ip, rest) := takeDigits cs
  match rest with
  | '.' :: rest2 =>
    let (fp, rest3) := takeDigits rest2
    if ip = [] ∧ fp = [] then none
    else (parseExp rest3).map (fun e => .finite neg ip fp e)
  | other =>
    if ip = [] then none
    else (parseExp other).map (fun e => .finite neg ip [] e)

/-- Model of `s.parse::<f64>()` as called by `string_to_f64`
(main.rs lines 12-18), per the documented grammar of Rust's
`f64: FromStr`: `Sign? ( 'inf' | 'infinity' | 'nan' | Number )`,
the keywords case-insensitive; `none` models the `Err` branch that
`string_to_f64` maps to a serde custom error. -/
def rustParseF64 (s : String) : Option RustFloatLit :=
  let (neg, cs) := splitSign s.toList
  match parseSpecial neg cs with
  | some v => some v
  | none => parseNumber neg cs

/-- A record of the provider's JSON response, `{date, value}`
(struct `InflationData`, main.rs lines 20-25), polymorphic in the value
field: `InflationData String` before the serde field parse,
`InflationData RustFloatLit` after it. -/
structure InflationData (α : Type) where
  date : String
  value : α
deriving DecidableEq

/-- Serde decoding of one record: `string_to_f64` applied to the value
field, the date carried through (main.rs lines 20-25). -/
def decodeRecord (r : InflationData String) : Option (InflationData RustFloatLit) :=
  (rustParseF64 r.value).map (fun v => ⟨r.date, v⟩)

/-- Serde decoding of the `inflation: Vec<InflationData>` field of
`InflationRaw` (main.rs lines 27-30): element-wise, all-or-nothing —
any failing record fails the whole vector. -/
def decodeInflationVec : List (InflationData String) → Option (List (InflationData RustFloatLit))
  | [] => some []
  | r :: rs => (decodeRecord r).bind (fun d => (decodeInflationVec rs).map (fun ds => d :: ds))

/-- Error taxonomy of the fetch path: missing configuration, transport
failure, JSON/schema decode failure. -/
inductive FetchError where
  | configError : FetchError
  | networkError : FetchError
  | decodeError : FetchError
deriving DecidableEq

/-- Model of `response.json::<InflationRaw>()` (main.rs line 56) applied
to the raw records of the response body: serde decoding of the record
vector, a failure surfacing as `DecodeError`. -/
def decodeResponse (raws : List (InflationData String)) :
    Except FetchError (List (InflationData RustFloatLit)) :=
  match decodeInflationVec raws with
  | none => .error .decodeError
  | some recs => .ok recs

/-- Startup configuration: the `API_TOKEN` and `URL_BASE` environment
variables, each possibly absent (main.rs lines 46-47). -/
structure Env where
  apiToken : Option String
  urlBase : Option String

/-- The request URL built by `get_historical_inflation`
(main.rs lines 49-52). -/
def mkUrl (base country token : String) : String :=
  base ++ "inflation?country=" ++ country ++
    "&historical=true&sortBy=date&sortOrder=desc&token=" ++ token

/-- Model of `get_historical_inflation` (main.rs lines 44-59).
`http` is the transport oracle: given the URL it either fails
(`NetworkError`, modelling transport failure or a non-success response)
or yields the raw records of the body. The missing-variable `expect`
panics are modelled as a fatal `ConfigError` result. The second
component counts HTTP requests issued, to make "a single attempt, no
retry" statable. -/
def get_historical_inflation (env : Env)
    (http : String → Except FetchError (List (InflationData String)))
    (country : String) :
    Except FetchError (List (InflationData RustFloatLit)) × Nat :=
  match env.apiToken with
  | none => (.error .configError, 0)
  | some token =>
    match env.urlBase with
    | none => (.error .configError, 0)
    | some base =>
      match http (mkUrl base country token) with
      | .error e => (.error e, 1)
      | .ok raws =>
        match decodeResponse raws with
        | .error e => (.error e, 1)
        | .ok recs => (.ok recs, 1)

/-- The value-extraction loop of `get_historical_data`
(main.rs lines 84-97): pushes each record's value, in iteration order,
onto an initially empty vector. -/
def get_historical_data (inflation_data : List (InflationData RustFloatLit)) : List RustFloatLit :=
  inflation_data.foldl (fun values item => values ++ [item.value]) []

/-- The normalization path from raw response records to the numeric
sequence fed to the engine: serde decode (all-or-nothing, main.rs
lines 54-58) followed by the value-extraction loop (main.rs
lines 84-97). -/
def normalizeRaw (raws : List (InflationData String)) : Except FetchError (List RustFloatLit) :=
  (decodeResponse raws).map get_historical_data

/-- Modelled from the spec: the external ARIMA engine (statsmodels,
reached through the embedded Python interpreter in `run_arima_model`,
main.rs lines 101-124) is not code of this repository. Its
`fitForecast series p d q horizon` models the
`ARIMA(series, order=(p,d,q)).fit().forecast(horizon)` call chain:
`none` is a raised Python error (the `?` paths), and per the spec's
engine contract a successful forecast of horizon `h` is the sequence of
the `h` point forecasts, step 1 first. The value type is abstract since
the engine's numerics are external. -/
structure ArimaEngine (α : Type) where
  fitForecast : List α → Nat → Nat → Nat → Nat → Option (List α)
  forecast_length : ∀ series p d q h out, fitForecast series p d q h = some out → out.length = h

/-- Model of `run_arima_model` (main.rs lines 101-124): invokes the
engine on the given values and order with the hard-coded horizon 150 and
returns the extracted forecast vector unchanged. -/
def run_arima_model (eng : ArimaEngine α) (values : List α) (p d q_arg : Nat) : Option (List α) :=
  eng.fitForecast values p d q_arg 150

/-- The session state `MyApp` (main.rs lines 144-152). Each
`Arc<Mutex<Vec<f64>>>` field is a list; a mutex-guarded whole-vector
assignment in the source is one atomic update of the field. -/
structure MyApp (α : Type) where
  historical : List α
  forecast : List α
  values : List α
  predictions : List α
  p : Nat
  d : Nat
  q : Nat

/-- The `Self { ... }` construction at the end of `MyApp::new`
(main.rs lines 161-173), given the fetched historical values. -/
def MyApp.init (vals : List α) : MyApp α :=
  { historical := vals, forecast := [], values := vals, predictions := [],
    p := 1, d := 1, q := 1 }

/-- Model of `MyApp::new` (main.rs lines 155-174): fetch and normalize
the historical series for `"brazil"`, then build the session; the
`unwrap` on a failed fetch panics, modelled as an aborting error. -/
def MyApp.new (env : Env) (http : String → Except FetchError (List (InflationData String))) :
    Except FetchError (MyApp RustFloatLit) :=
  ((get_historical_inflation env http "brazil").1).map
    (fun recs => MyApp.init (get_historical_data recs))

/-- One user interaction handled by `MyApp::update`
(main.rs lines 177-204): dragging one of the three sliders (egui clamps
each to its `0..=10` range) or clicking the recompute button. -/
inductive UiEvent where
  | setP (n : Nat)
  | setD (n : Nat)
  | setQ (n : Nat)
  | click

/-- State effect of one `MyApp::update` pass handling the given event
(main.rs lines 177-204). A click clones `values`, runs the ARIMA model
with the current order, and stores `unwrap_or_else(|_| vec![])` of the
result — the forecast on success, the empty vector on failure — as the
new `predictions`, a single whole-vector assignment under the mutex.
No other field is touched; `historical` and `forecast` are not read. -/
def update_step (eng : ArimaEngine α) (app : MyApp α) : UiEvent → MyApp α
  | .setP n => { app with p := min n 10 }
  | .setD n => { app with d := min n 10 }
  | .setQ n => { app with q := min n 10 }
  | .click =>
    let values := app.values
    let forecast := (run_arima_model eng values app.p app.d app.q).getD []
    { app with predictions := forecast }

/-- An engine instance that always fails to fit, for concrete
evaluation of the failure paths. -/
def failEngine : ArimaEngine Int where
  fitForecast := fun _ _ _ _ _ => none
  forecast_length := fun _ _ _ _ _ _ h => by cases h

/-- An engine instance that always succeeds with a constant forecast of
the requested horizon, for concrete evaluation of the success paths. -/
def constEngine : ArimaEngine Int where
  fitForecast := fun _ _ _ _ h => some (List.replicate h 0)
  forecast_length := fun _ _ _ _ _ _ h => by
    injection h with h
    subst h
    exact List.length_replicate _ _

end RustFin

namespace RustFin

example : rustParseF64 "2.5" = some (.finite false [2] [5] 0) := by rfl
example : rustParseF64 "-1e3" = some (.finite true [1] [] 3) := by rfl
example : rustParseF64 "abc" = none := by rfl
example : rustParseF64 "NaN" = some .nan := by rfl
example : rustParseF64 "-inf" = some (.inf true) := by rfl
example : rustParseF64 "Infinity" = some (.inf false) := by rfl
example : rustParseF64 "" = none := by rfl
example : rustParseF64 ".5" = some (.finite false [] [5] 0) := by rfl
example : rustParseF64 "1e" = none := by rfl
example : normalizeRaw [⟨"2024-01-31", "2.5"⟩, ⟨"2023-01-31", "1.5"⟩] =
    .ok [.finite false [2] [5] 0, .finite false [1] [5] 0] := by rfl
example : normalizeRaw [⟨"2024-01-31", "x"⟩, ⟨"2023-01-31", "1.5"⟩] =
    .error .decodeError := by rfl

/-! Helper lemmas about the decoding pipeline. -/

theorem decodeRecord_some {r : InflationData String} {rec : InflationData RustFloatLit}
    (h : decodeRecord r = some rec) : rustParseF64 r.value = some rec.value := by
  unfold decodeRecord at h
  cases hp : rustParseF64 r.value with
  | none => rw [hp] at h; cases h
  | some v =>
    rw [hp] at h
    simp only [Option.map_some', Option.some.injEq] at h
    subst h
    rfl

theorem decodeInflationVec_length :
    ∀ {raws : List (InflationData String)} {recs : List (InflationData RustFloatLit)},
    decodeInflationVec raws = some recs → recs.length = raws.length := by
  intro raws
  induction raws with
  | nil =>
    intro recs h
    simp only [decodeInflationVec, Option.some.injEq] at h
    subst h
    rfl
  | cons r rs ih =>
    intro recs h
    simp only [decodeInflationVec, Option.bind_eq_some, Option.map_eq_some'] at h
    obtain ⟨d, _, ds, hds, hrecs⟩ := h
    rw [← hrecs]
    simp [ih hds]

theorem decodeInflationVec_getElem :
    ∀ {raws : List (InflationData String)} {recs : List (InflationData RustFloatLit)},
    decodeInflationVec raws = some recs →
    ∀ i (hi : i < raws.length) (hr : i < recs.length), some recs[i] = decodeRecord raws[i] := by
  intro raws
  induction raws with
  | nil => intro recs _ i hi _; exact absurd hi (by simp)
  | cons r rs ih =>
    intro recs h i hi hr
    simp only [decodeInflationVec, Option.bind_eq_some, Option.map_eq_some'] at h
    obtain ⟨d, hd, ds, hds, hrecs⟩ := h
    subst hrecs
    cases i with
    | zero => simpa using hd.symm
    | succ n =>
      simp only [List.getElem_cons_succ]
      exact ih hds n (Nat.lt_of_succ_lt_succ hi) (Nat.lt_of_succ_lt_succ hr)

theorem decodeInflationVec_isSome :
    ∀ {raws : List (InflationData String)},
    (∀ r ∈ raws, (rustParseF64 r.value).isSome = true) →
    (decodeInflationVec raws).isSome = true := by
  intro raws
  induction raws with
  | nil => intro _; rfl
  | cons r rs ih =>
    intro h
    have hr := h r (by simp)
    have hrs := ih (fun x hx => h x (by simp [hx]))
    rcases Option.isSome_iff_exists.mp hr with ⟨v, hv⟩
    rcases Option.isSome_iff_exists.mp hrs with ⟨ds, hds⟩
    simp [decodeInflationVec, decodeRecord, hv, hds]

theorem decodeInflationVec_eq_none :
    ∀ {raws : List (InflationData String)},
    (∃ r ∈ raws, rustParseF64 r.value = none) → decodeInflationVec raws = none := by
  intro raws
  induction raws with
  | nil => rintro ⟨r, hr, _⟩; cases hr
  | cons a rs ih =>
    rintro ⟨r, hr, hnone⟩
    rcases List.mem_cons.mp hr with h | h
    · subst h
      simp [decodeInflationVec, decodeRecord, hnone]
    · rw [decodeInflationVec, ih ⟨r, h, hnone⟩]
      cases decodeRecord a <;> rfl

theorem foldl_push_eq_append :
    ∀ (recs : List (InflationData RustFloatLit)) (acc : List RustFloatLit),
    recs.foldl (fun values item => values ++ [item.value]) acc =
      acc ++ recs.map (fun r => r.value) := by
  intro recs
  induction recs with
  | nil => intro acc; simp
  | cons r rs ih => intro acc; simp [List.foldl_cons, ih]

theorem get_historical_data_eq_map (recs : List (InflationData RustFloatLit)) :
    get_historical_data recs = recs.map (fun r => r.value) := by
  simpa using foldl_push_eq_append recs []

theorem normalizeRaw_ok_elim {raws : List (InflationData String)} {l : List RustFloatLit}
    (h : normalizeRaw raws = .ok l) :
    l.length = raws.length ∧
    ∀ i (hi : i < raws.length) (hl : i < l.length), some l[i] = rustParseF64 (raws[i].value) := by
  have hrecs : ∃ recs, decodeInflationVec raws = some recs ∧ l = get_historical_data recs := by
    unfold normalizeRaw decodeResponse at h
    cases hd : decodeInflationVec raws with
    | none => rw [hd] at h; cases h
    | some recs =>
      rw [hd] at h
      injection h with h
      exact ⟨recs, rfl, h.symm⟩
  obtain ⟨recs, hd, hl'⟩ := hrecs
  have hm : l = recs.map (fun r => r.value) := by rw [hl', get_historical_data_eq_map]
  have hlen := decodeInflationVec_length hd
  subst hm
  refine ⟨by simp [hlen], ?_⟩
  intro i hi hli
  have hr : i < recs.length := by simpa using hli
  have hg := decodeInflationVec_getElem hd i hi hr
  have hv := decodeRecord_some hg.symm
  simp [List.getElem_map, hv]

/-! Helper lemmas about the session state machine. -/

theorem update_step_values (eng : ArimaEngine α) (app : MyApp α) (e : UiEvent) :
    (update_step eng app e).values = app.values := by
  cases e <;> rfl

theorem update_step_historical (eng : ArimaEngine α) (app : MyApp α) (e : UiEvent) :
    (update_step eng app e).historical = app.historical := by
  cases e <;> rfl

theorem update_step_forecast (eng : ArimaEngine α) (app : MyApp α) (e : UiEvent) :
    (update_step eng app e).forecast = app.forecast := by
  cases e <;> rfl

theorem update_steps_values (eng : ArimaEngine α) (app : MyApp α) (events : List UiEvent) :
    (events.foldl (update_step eng) app).values = app.values := by
  induction events generalizing app with
  | nil => rfl
  | cons e es ih => rw [List.foldl_cons, ih, update_step_values]

theorem update_steps_historical (eng : ArimaEngine α) (app : MyApp α) (events : List UiEvent) :
    (events.foldl (update_step eng) app).historical = app.historical := by
  induction events generalizing app with
  | nil => rfl
  | cons e es ih => rw [List.foldl_cons, ih, update_step_historical]

theorem update_steps_forecast (eng : ArimaEngine α) (app : MyApp α) (events : List UiEvent) :
    (events.foldl (update_step eng) app).forecast = app.forecast := by
  induction events generalizing app with
  | nil => rfl
  | cons e es ih => rw [List.foldl_cons, ih, update_step_forecast]

theorem update_step_override (eng : ArimaEngine α) (app : MyApp α) (h f : List α) (e : UiEvent) :
    update_step eng { app with historical := h, forecast := f } e =
      { update_step eng app e with historical := h, forecast := f } := by
  cases e <;> rfl

theorem update_steps_override (eng : ArimaEngine α) (app : MyApp α) (h f : List α)
    (events : List UiEvent) :
    events.foldl (update_step eng) { app with historical := h, forecast := f } =
      { events.foldl (update_step eng) app with historical := h, forecast := f } := by
  induction events generalizing app with
  | nil => rfl
  | cons e es ih => rw [List.foldl_cons, update_step_override, ih, List.foldl_cons]

/-! The claims. -/

/-- C1, as stated, is false on the code: a failed fit does not preserve
the previously stored forecast. Concretely, on a session whose stored
predictions are `[7]`, a recompute click whose fit fails leaves the
stored predictions different from (namely, cleared of) their pre-call
value. -/
theorem claim1_counterexample :
    (update_step failEngine { MyApp.init ([3] : List Int) with predictions := [7] }
        .click).predictions ≠
      ({ MyApp.init ([3] : List Int) with predictions := [7] } : MyApp Int).predictions := by
  decide

/-- C1 (amended): when the fit-and-forecast step fails, the recompute
click replaces the stored predictions with the empty vector — the
`unwrap_or_else(|_| vec![])` fallback — clearing, not preserving, the
previous forecast. Every other session field is unchanged. -/
theorem claim1_failed_fit_clears_predictions (eng : ArimaEngine α) (app : MyApp α)
    (h : run_arima_model eng app.values app.p app.d app.q = none) :
    (update_step eng app .click).predictions = [] ∧
    (update_step eng app .click) = { app with predictions := [] } := by
  constructor <;> simp [update_step, h]

/-- Witness for the amended C1 at a concrete session and failing engine. -/
theorem claim1_witness :
    (update_step failEngine (MyApp.init ([3] : List Int)) .click).predictions = [] :=
  (claim1_failed_fit_clears_predictions failEngine (MyApp.init [3]) rfl).1

/-- C2, as stated, is false on the code: for a provider series sorted by
date descending (here `2024-01-31` before `2023-01-31`), normalization
returns the values in provider order (newest first), not in
chronological oldest-first order, which would be the reverse. -/
theorem claim2_counterexample :
    ("2023-01-31".toList < "2024-01-31".toList) ∧
    normalizeRaw [⟨"2024-01-31", "2.5"⟩, ⟨"2023-01-31", "1.5"⟩] =
      .ok [.finite false [2] [5] 0, .finite false [1] [5] 0] ∧
    [RustFloatLit.finite false [2] [5] 0, .finite false [1] [5] 0] ≠
      [RustFloatLit.finite false [1] [5] 0, .finite false [2] [5] 0] :=
  ⟨by decide, by rfl, by decide⟩

/-- C2 (amended): normalization feeds the engine the values in the
provider's own order (descending by date, newest first): the i-th
output value is exactly the parse of the i-th raw record as returned by
the provider; no reversal into oldest-first order is performed. -/
theorem claim2_normalize_preserves_provider_order
    (raws : List (InflationData String)) (l : List RustFloatLit)
    (h : normalizeRaw raws = .ok l) :
    l.length = raws.length ∧
    ∀ i (hi : i < raws.length) (hl : i < l.length), some l[i] = rustParseF64 (raws[i].value) :=
  normalizeRaw_ok_elim h

/-- Witness for the amended C2 at a concrete one-record series. -/
theorem claim2_witness :
    some (RustFloatLit.finite false [2] [5] 0) = rustParseF64 "2.5" :=
  (claim2_normalize_preserves_provider_order
      [⟨"2024-01-31", "2.5"⟩] [.finite false [2] [5] 0] rfl).2 0 (by decide) (by decide)

/-- C3: if every raw record's value field parses as a number,
normalization succeeds and returns one value per input record, the i-th
output being exactly the parse of the i-th record's value string. -/
theorem claim3_normalize_success (raws : List (InflationData String))
    (h : ∀ r ∈ raws, (rustParseF64 r.value).isSome = true) :
    ∃ l, normalizeRaw raws = .ok l ∧ l.length = raws.length ∧
      ∀ i (hi : i < raws.length) (hl : i < l.length), some l[i] = rustParseF64 (raws[i].value) := by
  have hs := decodeInflationVec_isSome h
  rcases Option.isSome_iff_exists.mp hs with ⟨recs, hrecs⟩
  have hok : normalizeRaw raws = .ok (get_historical_data recs) := by
    unfold normalizeRaw decodeResponse
    rw [hrecs]
    rfl
  exact ⟨get_historical_data recs, hok, normalizeRaw_ok_elim hok⟩

/-- Witness for C3 at a concrete one-record series whose value parses. -/
theorem claim3_witness :
    ∃ l, normalizeRaw [(⟨"2024-01-31", "2.5"⟩ : InflationData String)] = .ok l ∧
      l.length = [(⟨"2024-01-31", "2.5"⟩ : InflationData String)].length ∧
      ∀ i (hi : i < [(⟨"2024-01-31", "2.5"⟩ : InflationData String)].length) (hl : i < l.length),
        some l[i] = rustParseF64 ([(⟨"2024-01-31", "2.5"⟩ : InflationData String)][i].value) :=
  claim3_normalize_success [⟨"2024-01-31", "2.5"⟩] (by decide)

/-- C4: for every engine obeying the spec's contract, every series and
every order within the sliders' 0-10 range, a successful
`run_arima_model` returns exactly 150 forecast values — the hard-coded
horizon — and the vector is the engine's forecast sequence unchanged
(step 1 first). -/
theorem claim4_forecast_length (eng : ArimaEngine α) (values : List α) (p d q : Nat)
    (out : List α) (hp : p ≤ 10) (hd : d ≤ 10) (hq : q ≤ 10)
    (h : run_arima_model eng values p d q = some out) :
    out.length = 150 ∧ eng.fitForecast values p d q 150 = some out :=
  ⟨eng.forecast_length values p d q 150 out h, h⟩

/-- Witness for C4 with the constant engine at order (1,1,1). -/
theorem claim4_witness :
    run_arima_model constEngine [0] 1 1 1 = some (List.replicate 150 (0 : Int)) ∧
      (List.replicate 150 (0 : Int)).length = 150 :=
  ⟨rfl, (claim4_forecast_length constEngine [0] 1 1 1 (List.replicate 150 0)
    (by decide) (by decide) (by decide) rfl).1⟩

/-- C5: if any raw record's value field does not parse as a number, the
whole normalization fails with a decode error — no record is dropped,
no default substituted, no partial sequence returned. -/
theorem claim5_normalize_all_or_nothing (raws : List (InflationData String))
    (h : ∃ r ∈ raws, rustParseF64 r.value = none) :
    normalizeRaw raws = .error .decodeError ∧
    decodeResponse raws = .error .decodeError := by
  have hd := decodeInflationVec_eq_none h
  have hr : decodeResponse raws = .error .decodeError := by
    unfold decodeResponse
    rw [hd]
  refine ⟨?_, hr⟩
  unfold normalizeRaw
  rw [hr]
  rfl

/-- Witness for C5 at a concrete series with one non-numeric value. -/
theorem claim5_witness :
    normalizeRaw [(⟨"2024-01-31", "abc"⟩ : InflationData String)] = .error .decodeError ∧
    decodeResponse [(⟨"2024-01-31", "abc"⟩ : InflationData String)] = .error .decodeError :=
  claim5_normalize_all_or_nothing [⟨"2024-01-31", "abc"⟩]
    ⟨⟨"2024-01-31", "abc"⟩, by decide, by rfl⟩

/-- C6: the historical series — both the `historical` field and the
`values` field that every recompute reads — equals its startup value
after any sequence of UI events, successful or failed recomputes
included: it is written once at startup and never mutated. -/
theorem claim6_historical_immutable (eng : ArimaEngine α) (vals : List α)
    (events : List UiEvent) :
    (events.foldl (update_step eng) (MyApp.init vals)).historical = vals ∧
    (events.foldl (update_step eng) (MyApp.init vals)).values = vals :=
  ⟨update_steps_historical eng (MyApp.init vals) events,
   update_steps_values eng (MyApp.init vals) events⟩

/-- C7: the fetch issues at most one HTTP request (no retry), and if the
API token or the base URL is absent it fails with a config error before
issuing any request, for every transport oracle, and session startup
(`MyApp::new`) aborts with that error. -/
theorem claim7_missing_config_fatal (env : Env)
    (http : String → Except FetchError (List (InflationData String))) (country : String) :
    (get_historical_inflation env http country).2 ≤ 1 ∧
    ((env.apiToken = none ∨ env.urlBase = none) →
      (get_historical_inflation env http country).1 = .error .configError ∧
      (get_historical_inflation env http country).2 = 0 ∧
      MyApp.new env http = .error .configError) := by
  obtain ⟨tok, url⟩ := env
  cases tok with
  | none => exact ⟨by simp [get_historical_inflation], fun _ => ⟨rfl, rfl, rfl⟩⟩
  | some token =>
    cases url with
    | none => exact ⟨by simp [get_historical_inflation], fun _ => ⟨rfl, rfl, rfl⟩⟩
    | some base =>
      constructor
      · cases hh : http (mkUrl base country token) with
        | error e => simp [get_historical_inflation, hh]
        | ok raws =>
          cases hdr : decodeResponse raws with
          | error e => simp [get_historical_inflation, hh, hdr]
          | ok recs => simp [get_historical_inflation, hh, hdr]
      · rintro (h | h) <;> simp at h

/-- Witness for C7 with the token absent and a trivial transport. -/
theorem claim7_witness :
    (get_historical_inflation ⟨none, some "https://api.example/"⟩
        (fun _ => .error .networkError) "brazil").1 = .error .configError ∧
    (get_historical_inflation ⟨none, some "https://api.example/"⟩
        (fun _ => .error .networkError) "brazil").2 = 0 ∧
    MyApp.new ⟨none, some "https://api.example/"⟩
        (fun _ => .error .networkError) = .error .configError :=
  (claim7_missing_config_fatal ⟨none, some "https://api.example/"⟩
      (fun _ => .error .networkError) "brazil").2 (Or.inl rfl)

/-- C8: the stored forecast is only ever replaced as a single whole.
Each mutex-guarded vector assignment in the source is one atomic step
of the model, so any concurrent schedule of recomputes is a sequence of
such steps; after any sequence of UI events the stored predictions are
either still the initial ones, or the complete output of exactly one
engine fit against the session's series (a failed fit contributing the
whole empty vector) — never a sequence mixing elements of two fits. -/
theorem claim8_forecast_atomic_whole (eng : ArimaEngine α) (app : MyApp α)
    (events : List UiEvent) :
    (events.foldl (update_step eng) app).predictions = app.predictions ∨
    (events.foldl (update_step eng) app).predictions = [] ∨
    ∃ p d q out, run_arima_model eng app.values p d q = some out ∧
      (events.foldl (update_step eng) app).predictions = out := by
  induction events generalizing app with
  | nil => exact Or.inl rfl
  | cons e es ih =>
    rw [List.foldl_cons]
    have hv : (update_step eng app e).values = app.values := update_step_values eng app e
    rcases ih (update_step eng app e) with h1 | h1 | h1
    · rw [h1]
      cases e with
      | click =>
        cases hr : run_arima_model eng app.values app.p app.d app.q with
        | none =>
          refine Or.inr (Or.inl ?_)
          simp [update_step, hr]
        | some out =>
          exact Or.inr (Or.inr ⟨app.p, app.d, app.q, out, hr, by simp [update_step, hr]⟩)
      | setP n => exact Or.inl rfl
      | setD n => exact Or.inl rfl
      | setQ n => exact Or.inl rfl
    · exact Or.inr (Or.inl h1)
    · rw [hv] at h1
      exact Or.inr (Or.inr h1)

/-- C9: the value parser is exactly Rust's `f64` parse, whose grammar
accepts the non-finite encodings: `NaN`, `inf` and `-inf` all decode
successfully, to non-finite values, instead of being rejected as decode
errors. -/
theorem claim9_nonfinite_accepted :
    rustParseF64 "NaN" = some .nan ∧
    rustParseF64 "inf" = some (.inf false) ∧
    rustParseF64 "-inf" = some (.inf true) ∧
    RustFloatLit.nan.isFiniteVal = false ∧
    (RustFloatLit.inf false).isFiniteVal = false ∧
    (RustFloatLit.inf true).isFiniteVal = false ∧
    decodeRecord ⟨"2024-01-31", "NaN"⟩ = some ⟨"2024-01-31", .nan⟩ :=
  ⟨rfl, rfl, rfl, rfl, rfl, rfl, rfl⟩

/-- C10: after construction the `historical` and `forecast` fields are
dead: `forecast` stays the empty vector through any sequence of UI
events, and both fields are neither read nor written by the display or
recompute paths — overriding them at startup leaves every step of the
session's evolution otherwise identical, with the overrides passing
through untouched. -/
theorem claim10_dead_fields (eng : ArimaEngine α) (vals : List α) (events : List UiEvent)
    (h f : List α) :
    (events.foldl (update_step eng) (MyApp.init vals)).forecast = [] ∧
    events.foldl (update_step eng) { MyApp.init vals with historical := h, forecast := f } =
      { events.foldl (update_step eng) (MyApp.init vals) with
          historical := h, forecast := f } :=
  ⟨update_steps_forecast eng (MyApp.init vals) events,
   update_steps_override eng (MyApp.init vals) h f events⟩

end RustFin
